import Mathlib

/-!
Verification of the cliff-watch correlation core (crates/cliff-watch-core and
crates/cliff-watch-daemon).  Real-valued quantities of the source (`f64`) are
modelled over `ℝ`; machine counters (`usize`, `u64`, `u128`) over `ℕ`.
Wall-clock reads (`SystemTime::now`) are replaced by explicitly passing to each
operation the elapsed time since the previous one, or the current instant,
which is the only information the source derives from the clock.
-/

/-!
### Definitions

Real-valued state (battery, statistics, focus sessions, the ticket handler)
sits in a `noncomputable` section; the debouncer, the path filter and the
formatting helpers are executable.
-/

noncomputable section

/-- Attention battery state (monitor.rs, `struct AttentionBattery`).  The
`last_decay` instant is not stored: every operation of the source first calls
`apply_decay`, which only uses `now - last_decay`, so each modelled operation
receives that elapsed duration (in seconds) as an argument. -/
structure AttentionBattery where
  level : ℝ
  capacity : ℝ
  leak_rate : ℝ
  causal_event_count : ℕ

namespace AttentionBattery

/-- monitor.rs `AttentionBattery::new`: jumpstart level 15, capacity 100,
leak rate 0.5 per second, causal cursor 0. -/
def new : AttentionBattery :=
  { level := 15, capacity := 100, leak_rate := 0.5, causal_event_count := 0 }

/-- monitor.rs `AttentionBattery::apply_decay`:
`level = (level - elapsed * leak_rate).max(0.0)` (`elapsed ≥ 0`, since
`duration_since` yields a duration only when the clock moved forward). -/
def apply_decay (b : AttentionBattery) (elapsed : ℝ) : AttentionBattery :=
  { b with level := max (b.level - elapsed * b.leak_rate) 0 }

/-- monitor.rs `AttentionBattery::charge` (legacy v1.0 path). -/
def charge (b : AttentionBattery) (elapsed motor_entropy duration : ℝ)
    (hardware_events keyboard_hits : ℕ) : AttentionBattery :=
  let b' := apply_decay b elapsed
  let events_delta := hardware_events - b'.causal_event_count
  if events_delta = 0 then b'
  else
    let mouse_charge := min (motor_entropy * duration * 5) ((events_delta : ℝ) * 0.1)
    let keyboard_charge := min ((keyboard_hits : ℝ) * 0.5) 20
    { b' with level := min (b'.level + mouse_charge + keyboard_charge) b'.capacity,
              causal_event_count := hardware_events }

/-- monitor.rs `AttentionBattery::charge_focus` (v2.0 path):
`(secs/60)*10 + sqrt(bursts)*5 + nav*2`, capped at capacity. -/
def charge_focus (b : AttentionBattery) (elapsed focus_secs : ℝ)
    (edit_burst_count navigation_events : ℕ) : AttentionBattery :=
  let b' := apply_decay b elapsed
  let focus_charge := focus_secs / 60 * 10
  let edit_bonus := Real.sqrt (edit_burst_count : ℝ) * 5
  let nav_bonus := (navigation_events : ℝ) * 2
  let total_charge := focus_charge + edit_bonus + nav_bonus
  { b' with level := min (b'.level + total_charge) b'.capacity }

/-- monitor.rs `AttentionBattery::consume`: decay first, then subtract `cost`
when affordable, returning the success flag and the new state. -/
def consume (b : AttentionBattery) (elapsed cost : ℝ) : Bool × AttentionBattery :=
  let b' := apply_decay b elapsed
  if b'.level ≥ cost then (true, { b' with level := b'.level - cost })
  else (false, b')

end AttentionBattery

/-- One battery operation of a history, tagged with the elapsed wall time
(seconds, nonnegative by construction in the source) consumed by its
leading `apply_decay`. -/
inductive BatteryOp where
  | charge (elapsed motor_entropy duration : ℝ) (hardware_events keyboard_hits : ℕ)
  | charge_focus (elapsed focus_secs : ℝ) (edit_burst_count navigation_events : ℕ)
  | consume (elapsed cost : ℝ)

/-- Non-negativity of every real-valued input of an operation (event counts,
keyboard hits, edit bursts and navigation events are `ℕ`-valued already). -/
def BatteryOp.Nonneg : BatteryOp → Prop
  | .charge e me dur _ _ => 0 ≤ e ∧ 0 ≤ me ∧ 0 ≤ dur
  | .charge_focus e fs _ _ => 0 ≤ e ∧ 0 ≤ fs
  | .consume e c => 0 ≤ e ∧ 0 ≤ c

/-- Apply one operation to the battery (`consume`'s flag is discarded, as the
correlation core does when it only threads the state). -/
def BatteryOp.step (b : AttentionBattery) : BatteryOp → AttentionBattery
  | .charge e me dur he kh => b.charge e me dur he kh
  | .charge_focus e fs eb nav => b.charge_focus e fs eb nav
  | .consume e c => (b.consume e c).2

/-- Run a finite history of battery operations from a starting state. -/
def BatteryOp.run (b : AttentionBattery) (ops : List BatteryOp) : AttentionBattery :=
  ops.foldl BatteryOp.step b

/-- The inductive battery invariant: the level is within bounds and the leak
rate is nonnegative. -/
def BatteryGood (b : AttentionBattery) : Prop :=
  0 ≤ b.level ∧ b.level ≤ b.capacity ∧ 0 ≤ b.leak_rate

/-! ## Navigation statistics (stats.rs) -/

/-- stats.rs `get_intervals`: absolute differences of consecutive timestamps,
dropping the ones not exceeding `1e-10` (`windows(2)` is modelled by zipping
the list with its tail). -/
def get_intervals (times : List ℝ) : List ℝ :=
  ((times.zip times.tail).map (fun w => |w.2 - w.1|)).filter
    (fun x => decide ((1e-10 : ℝ) < x))

/-- The inline mean `intervals.iter().sum() / intervals.len()` of stats.rs. -/
def list_mean (l : List ℝ) : ℝ := l.sum / l.length

/-- stats.rs `calculate_std_dev`: population standard deviation around the
given mean. -/
def calculate_std_dev (data : List ℝ) (mean : ℝ) : ℝ :=
  Real.sqrt ((data.map (fun v => (mean - v) * (mean - v))).sum / data.length)

/-- stats.rs `is_synthetic_pattern`: needs at least five (filtered) intervals;
degenerate tiny mean is flagged synthetic; otherwise the flag is
`stddev / mean < 0.15`. -/
def is_synthetic_pattern (times : List ℝ) : Bool :=
  let intervals := get_intervals times
  if intervals.length < 5 then false
  else
    let mean := list_mean intervals
    let std_dev := calculate_std_dev intervals mean
    if mean < (1e-10 : ℝ) then true
    else decide (std_dev / mean < 0.15)

/-! ## Focus sessions (focus_session.rs) -/

/-- focus_session.rs `FocusMetrics`. -/
structure FocusMetrics where
  total_focus_mins : ℝ
  edit_burst_count : ℕ
  chars_edited_net : ℤ
  unique_files : ℕ
  navigation_events : ℕ
  is_synthetic : Bool

/-- Source `FocusMetrics::default()`: all zero, not synthetic. -/
def FocusMetrics.default : FocusMetrics :=
  { total_focus_mins := 0, edit_burst_count := 0, chars_edited_net := 0,
    unique_files := 0, navigation_events := 0, is_synthetic := false }

/-- focus_session.rs `FocusSession` (paths are file-name strings). -/
structure FocusSession where
  file_path : Option String
  started_at : ℝ
  edit_bursts : ℕ
  chars_delta : ℤ
  nav_events : ℕ

namespace FocusSession

/-- Source `FocusSession::new` at the current instant `now`. -/
def new (fp : Option String) (now : ℝ) : FocusSession :=
  { file_path := fp, started_at := now, edit_bursts := 0, chars_delta := 0, nav_events := 0 }

/-- Source `FocusSession::record_edit`. -/
def record_edit (s : FocusSession) (chars : ℤ) : FocusSession :=
  { s with edit_bursts := s.edit_bursts + 1, chars_delta := s.chars_delta + chars }

/-- Source `FocusSession::record_navigation`. -/
def record_navigation (s : FocusSession) : FocusSession :=
  { s with nav_events := s.nav_events + 1 }

/-- Source `FocusSession::duration` (seconds): `duration_since` falls back to zero
when the clock went backwards. -/
def duration (s : FocusSession) (now : ℝ) : ℝ := max (now - s.started_at) 0

/-- Source `FocusSession::focus_minutes`. -/
def focus_minutes (s : FocusSession) (now : ℝ) : ℝ := s.duration now / 60

end FocusSession

/-- Source `HashMap::entry(k).or_insert(0); *e += v` over an association list
(`ℝ`-valued accumulators). -/
def accum_add_real : List (String × ℝ) → String → ℝ → List (String × ℝ)
  | [], k, v => [(k, v)]
  | (k', v') :: rest, k, v =>
      if k' = k then (k', v' + v) :: rest else (k', v') :: accum_add_real rest k v

/-- Same as `accum_add_real` for `ℕ`-valued accumulators. -/
def accum_add_nat : List (String × ℕ) → String → ℕ → List (String × ℕ)
  | [], k, v => [(k, v)]
  | (k', v') :: rest, k, v =>
      if k' = k then (k', v' + v) :: rest else (k', v') :: accum_add_nat rest k v

/-- Source `HashSet::insert` / key insertion of `HashMap<_, ()>` over a list without
duplicates. -/
def set_insert (l : List String) (s : String) : List String :=
  if s ∈ l then l else s :: l

/-- focus_session.rs `FocusTracker` state. -/
structure FocusTracker where
  current_session : Option FocusSession
  unique_files : List String
  cumulative : FocusMetrics
  last_heartbeat : Option ℝ
  nav_timestamps : List ℝ
  file_focus_accum : List (String × ℝ)
  file_nav_accum : List (String × ℕ)
  productive_files : List String

namespace FocusTracker

/-- Source `FocusTracker::new`. -/
def new : FocusTracker :=
  { current_session := none, unique_files := [], cumulative := FocusMetrics.default,
    last_heartbeat := none, nav_timestamps := [], file_focus_accum := [],
    file_nav_accum := [], productive_files := [] }

/-- Source `FocusTracker::finalize_current_session`: fold the active session (if any)
into the per-file and cumulative focus-minute accumulators. -/
def finalize_current_session (t : FocusTracker) (now : ℝ) : FocusTracker :=
  match t.current_session with
  | none => t
  | some session =>
      let mins := session.focus_minutes now
      let accum :=
        match session.file_path with
        | some p => accum_add_real t.file_focus_accum p mins
        | none => t.file_focus_accum
      { t with current_session := none,
               file_focus_accum := accum,
               cumulative := { t.cumulative with
                 total_focus_mins := t.cumulative.total_focus_mins + mins } }

/-- Source `FocusTracker::focus_gained`. -/
def focus_gained (t : FocusTracker) (fp : Option String) (now : ℝ) : FocusTracker :=
  let t1 := t.finalize_current_session now
  let t2 :=
    match fp with
    | some p => { t1 with unique_files := set_insert t1.unique_files p }
    | none => t1
  { t2 with current_session := some (FocusSession.new fp now) }

/-- Source `FocusTracker::focus_lost`. -/
def focus_lost (t : FocusTracker) (now : ℝ) : FocusTracker :=
  t.finalize_current_session now

/-- Source `FocusTracker::edit_burst`: records on the active session, opening a
temporary one on `fp` when idle, and bumps the global counters. -/
def edit_burst (t : FocusTracker) (fp : String) (chars_delta : ℤ) (now : ℝ) : FocusTracker :=
  let t1 := { t with unique_files := set_insert t.unique_files fp }
  let t2 :=
    match t1.current_session with
    | some s => { t1 with current_session := some (s.record_edit chars_delta) }
    | none =>
        let fresh := (FocusSession.new (some fp) now).record_edit chars_delta
        { t1 with current_session := some fresh }
  { t2 with cumulative := { t2.cumulative with
      edit_burst_count := t2.cumulative.edit_burst_count + 1,
      chars_edited_net := t2.cumulative.chars_edited_net + chars_delta } }

/-- Source `FocusTracker::navigation`: per-file navigation count, global count, and
the capped (last 100) navigation-timestamp ring. -/
def navigation (t : FocusTracker) (fp : String) (timestamp_ms : ℕ) : FocusTracker :=
  let t1 := { t with unique_files := set_insert t.unique_files fp }
  let t2 :=
    match t1.current_session with
    | some s => { t1 with current_session := some s.record_navigation }
    | none => t1
  let t3 := { t2 with file_nav_accum := accum_add_nat t2.file_nav_accum fp 1,
                      cumulative := { t2.cumulative with
                        navigation_events := t2.cumulative.navigation_events + 1 } }
  let ts := t3.nav_timestamps ++ [(timestamp_ms : ℝ)]
  { t3 with nav_timestamps := if 100 < ts.length then ts.tail else ts }

/-- Source `FocusTracker::heartbeat`. -/
def heartbeat (t : FocusTracker) (now : ℝ) : FocusTracker :=
  { t with last_heartbeat := some now }

/-- Source `FocusTracker::mark_as_productive`. -/
def mark_as_productive (t : FocusTracker) (p : String) : FocusTracker :=
  { t with productive_files := set_insert t.productive_files p }

/-- Source `FocusTracker::get_metrics`: focus minutes and navigation events filtered
to productive files (including the current session when its file is
productive); edit bursts and chars exported unfiltered; synthetic flag from
the navigation-timestamp ring. -/
def get_metrics (t : FocusTracker) (now : ℝ) : FocusMetrics :=
  let base_mins :=
    ((t.file_focus_accum.filter (fun e => decide (e.1 ∈ t.productive_files))).map
      (fun e => e.2)).sum
  let session_mins :=
    match t.current_session with
    | some s =>
        match s.file_path with
        | some p => if p ∈ t.productive_files then s.focus_minutes now else 0
        | none => 0
    | none => 0
  let navs :=
    ((t.file_nav_accum.filter (fun e => decide (e.1 ∈ t.productive_files))).map
      (fun e => e.2)).sum
  { total_focus_mins := base_mins + session_mins,
    edit_burst_count := t.cumulative.edit_burst_count,
    chars_edited_net := t.cumulative.chars_edited_net,
    unique_files := t.productive_files.length,
    navigation_events := navs,
    is_synthetic := is_synthetic_pattern t.nav_timestamps }

/-- focus_session.rs `FocusTracker::reset` (lines 265–271): clears the
session, the unique-file set, the cumulative counters and the heartbeat —
and nothing else. -/
def reset (t : FocusTracker) : FocusTracker :=
  { t with current_session := none, unique_files := [],
           cumulative := FocusMetrics.default, last_heartbeat := none }

end FocusTracker

/-- The concrete tracker history refuting C6: one navigation on `/a.rs`,
then the file is marked productive. -/
def c6Tracker : FocusTracker :=
  (FocusTracker.new.navigation "/a.rs" 5).mark_as_productive "/a.rs"

end

/-! ## File monitor: debouncing and path filtering (monitor.rs, section 1) -/

/-- monitor.rs `EditKind`. -/
inductive EditKind where
  | Create
  | Modify
  | Delete
deriving DecidableEq

/-- Normalized relative paths, as their component lists (`PathBuf`). -/
abbrev MPath := List String

/-- A raw filesystem event (`RawEvent`): path relative to the watch root,
receipt timestamp in microseconds, kind. -/
structure RawEvent where
  rel_path : MPath
  timestamp_us : ℕ
  kind : EditKind
deriving DecidableEq

/-- Source `HashMap::get` over an association list. -/
def lookup_emit : List (MPath × ℕ) → MPath → Option ℕ
  | [], _ => none
  | (k, v) :: rest, p => if k = p then some v else lookup_emit rest p

/-- Source `HashMap::insert` (replacing any existing binding) over an association
list. -/
def insert_emit (m : List (MPath × ℕ)) (p : MPath) (v : ℕ) : List (MPath × ℕ) :=
  (p, v) :: m.filter (fun e => decide (e.1 ≠ p))

/-- monitor.rs `struct Debouncer` (timestamps in microseconds). -/
structure Debouncer where
  window_us : ℕ
  last_emit_us : List (MPath × ℕ)
  seen : ℕ
  gc_every : ℕ

/-- Source `Debouncer::new`: empty map, `seen = 0`, `gc_every = 4096`. -/
def Debouncer.new (window_us : ℕ) : Debouncer :=
  { window_us := window_us, last_emit_us := [], seen := 0, gc_every := 4096 }

/-- Source `self.seen += 1`. -/
def Debouncer.bump (d : Debouncer) : Debouncer :=
  { d with seen := d.seen + 1 }

/-- The `allow` guard of `should_emit`: suppressed when a previous emit for
this exact path lies within the window (`saturating_sub` is `ℕ`
subtraction). -/
def Debouncer.allow_of (d : Debouncer) (path : MPath) (ts_us : ℕ) : Bool :=
  match lookup_emit d.last_emit_us path with
  | some prev => if ts_us - prev < d.window_us then false else true
  | none => true

/-- Source `if allow { self.last_emit_us.insert(path, ts_us) }`. -/
def Debouncer.record (d : Debouncer) (path : MPath) (ts_us : ℕ) (allow : Bool) : Debouncer :=
  if allow then { d with last_emit_us := insert_emit d.last_emit_us path ts_us } else d

/-- The periodic eviction: every `gc_every` observations, drop entries older
than 16 windows before the current timestamp (`saturating` arithmetic). -/
def Debouncer.gc (d : Debouncer) (ts_us : ℕ) : Debouncer :=
  if d.seen % d.gc_every = 0 then
    { d with last_emit_us :=
        d.last_emit_us.filter (fun e => decide (ts_us - d.window_us * 16 ≤ e.2)) }
  else d

/-- monitor.rs `Debouncer::should_emit`: `Delete` passes untouched; otherwise
bump the observation counter, decide `allow`, record the emit, maybe run the
eviction, and return `allow` with the new state. -/
def Debouncer.should_emit (d : Debouncer) (path : MPath) (kind : EditKind) (ts_us : ℕ) :
    Bool × Debouncer :=
  if kind = EditKind.Delete then (true, d)
  else
    let d1 := d.bump
    let allow := d1.allow_of path ts_us
    let d2 := d1.record path ts_us allow
    (allow, d2.gc ts_us)

/-- Feed a list of raw events through the debouncer, pairing each event with
its emit decision and threading the state. -/
def deb_run (d : Debouncer) : List RawEvent → List (RawEvent × Bool) × Debouncer
  | [] => ([], d)
  | e :: es =>
      let r := d.should_emit e.rel_path e.kind e.timestamp_us
      let rest := deb_run r.2 es
      ((e, r.1) :: rest.1, rest.2)

/-- The per-path invariant driving the suppression argument: the map holds an
entry for `p` stamped no earlier than `T`. -/
def KeyTracked (d : Debouncer) (p : MPath) (T : ℕ) : Prop :=
  ∃ t, lookup_emit d.last_emit_us p = some t ∧ T ≤ t

/-! ## Path filtering (monitor.rs: `normalize_rel`, `should_ignore`,
`MonitorConfig::new`) -/

/-- A path component as classified by `std::path::Component` (exotic
components also fall into the dropped branch of `normalize_rel`, so only
these three shapes matter for relative paths). -/
inductive PathComp where
  | curDir
  | parentDir
  | normal (s : String)
deriving DecidableEq

/-- monitor.rs `normalize_rel`: lexical normalization — `.` dropped, `..`
pops the accumulator, normal components pushed. -/
def normalize_rel (p : List PathComp) : MPath :=
  p.foldl
    (fun out c =>
      match c with
      | PathComp.curDir => out
      | PathComp.parentDir => out.dropLast
      | PathComp.normal s => out ++ [s])
    []

/-- The character suffix after the last `.` of a component (`none` when there
is no dot). -/
def last_dot_split : List Char → Option (List Char)
  | [] => none
  | c :: cs =>
      match last_dot_split cs with
      | some e => some e
      | none => if c = '.' then some cs else none

/-- Source `std::path::Path::extension` on one file name: the suffix after the last
dot — `none` when there is no dot, or when the only dot is the leading
character (hidden files), which is why the head character is skipped. -/
def rust_extension (name : String) : Option String :=
  match name.data with
  | [] => none
  | _ :: cs => (last_dot_split cs).map (fun e => String.mk e)

/-- Source `rel.extension()` on a normalized relative path: the extension of its
last component. -/
def rel_extension (rel : MPath) : Option String :=
  match rel.getLast? with
  | some name => rust_extension name
  | none => none

/-- monitor.rs `should_ignore`: true when the first normalized component is in
the ignore-dir set, or the final extension is in the ignore-extension set. -/
def should_ignore (rel : MPath) (ignore_top ignore_ext : List String) : Bool :=
  (match rel.head? with
   | some first => decide (first ∈ ignore_top)
   | none => false) ||
  (match rel_extension rel with
   | some ext => decide (ext ∈ ignore_ext)
   | none => false)

/-- monitor.rs `MonitorConfig::new` (lines 119–139): the default ignore-dir
set. -/
def default_ignore_top : List String := [".git", "target", "node_modules"]

/-- monitor.rs `MonitorConfig::new`: the default ignore-extension set — only
`"log"` is inserted. -/
def default_ignore_ext : List String := ["log"]

/-- A watcher callback event before the ignore filter: components of the path
relative to the watch root, receipt timestamp, kind. -/
structure WatchEvent where
  raw_path : List PathComp
  timestamp_us : ℕ
  kind : EditKind
deriving DecidableEq

/-- The callback side of `FileMonitor::run`: normalize each path and drop the
event when `should_ignore` fires. -/
def callback_filter (ignore_top ignore_ext : List String)
    (evs : List WatchEvent) : List RawEvent :=
  evs.filterMap
    (fun e =>
      let rel := normalize_rel e.raw_path
      if should_ignore rel ignore_top ignore_ext then none
      else some ⟨rel, e.timestamp_us, e.kind⟩)

/-- The events the consumer loop forwards downstream: callback filter, then
debounce from the fresh `Debouncer`, keeping the events whose emit flag is
`true`. -/
def monitor_emits (ignore_top ignore_ext : List String) (window : ℕ)
    (evs : List WatchEvent) : List RawEvent :=
  ((deb_run (Debouncer.new window) (callback_filter ignore_top ignore_ext evs)).1.filter
      (fun r => r.2)).map (fun r => r.1)

/-- The Ed25519 implementation (`ed25519_dalek`) abstracted by its interface:
key types, raw signing and verification over the payload bytes (ASCII, so a
`String` stands for its byte sequence).  Its documented contract — a
signature by `sk` verifies under `verifying_key sk` and is 64 bytes — enters
the theorems as explicit hypotheses. -/
structure SigScheme where
  SKey : Type
  PKey : Type
  verifying_key : SKey → PKey
  dalek_sign : SKey → String → List ℕ
  dalek_verify : PKey → String → List ℕ → Bool

/-- crypto.rs `sign_data`: sign the exact bytes; never fails. -/
def sign_data (S : SigScheme) (sk : S.SKey) (data : String) :
    Except String (List ℕ) :=
  Except.ok (S.dalek_sign sk data)

/-- crypto.rs `verify_signature`: reject signatures that are not 64 bytes,
otherwise verify over the exact bytes. -/
def verify_signature (S : SigScheme) (pk : S.PKey) (data : String)
    (sig : List ℕ) : Except String Bool :=
  if sig.length ≠ 64 then Except.error "Invalid signature length"
  else Except.ok (S.dalek_verify pk data sig)

/-- Round to the nearest integer, ties to even — the rounding of Rust's
fixed-precision `{:.2}` float formatting, on the `ℚ`-modelled value. -/
def round_half_even (q : ℚ) : ℤ :=
  let n := ⌊q⌋
  if q - n < 1/2 then n
  else if 1/2 < q - n then n + 1
  else if n % 2 = 0 then n else n + 1

/-- Two-decimal formatting `{:.2}` of a (rational-modelled) float. -/
def fmt2 (q : ℚ) : String :=
  let scaled := (round_half_even (|q| * 100)).toNat
  let sign := if q < 0 then "-" else ""
  let frac := scaled % 100
  sign ++ toString (scaled / 100) ++ "." ++
    (if frac < 10 then "0" else "") ++ toString frac

/-- protocol.rs `Response`, restricted to the arm the `GetTicket` path
produces. -/
inductive Response where
  | Ticket (success : Bool) (signature : Option (List ℕ)) (message : String)

/-- A concrete correct scheme instantiating the Ed25519 contract for the C3
witness. -/
def trivial_scheme : SigScheme where
  SKey := Unit
  PKey := Unit
  verifying_key := fun _ => ()
  dalek_sign := fun _ _ => List.replicate 64 0
  dalek_verify := fun _ _ sig => decide (sig.length = 64)

/-! ## Novelty (complexity.rs `calculate_ncd_against_context`) -/

/-- complexity.rs `calculate_ncd_against_context`, parameterized by the size
function of the external zstd level-3 compressor (`compress_size` wraps
`zstd::stream::encode_all(bytes, 3)`), which has no source in this
repository; claims about its concrete output sizes are outside the
embedding. -/
def calculate_ncd_against_context (compress_size : String → ℕ)
    (new_code existing_context : String) : ℚ :=
  let c_new := compress_size new_code
  let c_context := compress_size existing_context
  let c_combined := compress_size (existing_context ++ new_code)
  let numerator := ((c_combined - min c_context c_new : ℕ) : ℚ)
  let denominator := ((max c_context c_new : ℕ) : ℚ)
  if denominator = 0 then 1
  else min (max (numerator / denominator) 0) 1

noncomputable section

/-- ipc.rs `Request::GetTicket` handler: apply the difficulty factor, consume
the battery; on success build the ASCII payload
`"VALID:cost=<2dp>:ts=<seconds since start>"` once and sign it verbatim.
The success `message` is the fixed string of the source; the failure
message's float interpolation is elided (it plays no role in the claims). -/
def handle_get_ticket (S : SigScheme) (sk : S.SKey) (difficulty_factor : ℝ)
    (battery : AttentionBattery) (elapsed : ℝ) (cost : ℚ) (uptime_secs : ℕ) :
    Response × AttentionBattery :=
  let adjusted_cost := (cost : ℝ) * difficulty_factor
  let r := battery.consume elapsed adjusted_cost
  if r.1 then
    let message := "VALID:cost=" ++ fmt2 cost ++ ":ts=" ++ toString uptime_secs
    (Response.Ticket true (sign_data S sk message).toOption
      "Ticket issued. Thermodynamic balance verified.", r.2)
  else
    (Response.Ticket false none
      "THERMODYNAMIC FAILURE: insufficient battery. Focus more!", r.2)

end

/-!
### Theorems
-/

lemma batteryGood_new : BatteryGood AttentionBattery.new := by
  refine ⟨by norm_num [AttentionBattery.new], by norm_num [AttentionBattery.new],
    by norm_num [AttentionBattery.new]⟩

lemma apply_decay_level (b : AttentionBattery) (e : ℝ) :
    (b.apply_decay e).level = max (b.level - e * b.leak_rate) 0 := rfl

lemma apply_decay_capacity (b : AttentionBattery) (e : ℝ) :
    (b.apply_decay e).capacity = b.capacity := rfl

lemma apply_decay_good {b : AttentionBattery} {e : ℝ} (h : BatteryGood b) (he : 0 ≤ e) :
    BatteryGood (b.apply_decay e) := by
  obtain ⟨h0, hc, hl⟩ := h
  refine ⟨le_max_right _ _, ?_, hl⟩
  have hd : 0 ≤ e * b.leak_rate := mul_nonneg he hl
  exact max_le (by simpa [AttentionBattery.apply_decay] using by linarith) (le_trans h0 hc)

lemma charge_good {b : AttentionBattery} {e me dur : ℝ} {he kh : ℕ}
    (h : BatteryGood b) (hnn : 0 ≤ e ∧ 0 ≤ me ∧ 0 ≤ dur) :
    BatteryGood (b.charge e me dur he kh) := by
  obtain ⟨hE, hMe, hDur⟩ := hnn
  have hg := apply_decay_good h hE
  obtain ⟨h0, hc, hl⟩ := hg
  unfold AttentionBattery.charge
  by_cases hz : he - (b.apply_decay e).causal_event_count = 0
  · simpa [hz] using ⟨h0, hc, hl⟩
  · have hcap : (0 : ℝ) ≤ (b.apply_decay e).capacity := le_trans h0 hc
    have hmc : 0 ≤ min (me * dur * 5) (((he - (b.apply_decay e).causal_event_count : ℕ) : ℝ) * 0.1) := by
      refine le_min (by positivity) (by positivity)
    have hkc : 0 ≤ min ((kh : ℝ) * 0.5) 20 := le_min (by positivity) (by norm_num)
    refine ⟨?_, ?_, ?_⟩
    · simp only [hz, if_false]
      exact le_min (by linarith) hcap
    · simp only [hz, if_false]
      exact min_le_right _ _
    · simp only [hz, if_false]
      exact hl

lemma charge_focus_good {b : AttentionBattery} {e fs : ℝ} {eb nav : ℕ}
    (h : BatteryGood b) (hnn : 0 ≤ e ∧ 0 ≤ fs) :
    BatteryGood (b.charge_focus e fs eb nav) := by
  obtain ⟨hE, hFs⟩ := hnn
  have hg := apply_decay_good h hE
  obtain ⟨h0, hc, hl⟩ := hg
  have hcap : (0 : ℝ) ≤ (b.apply_decay e).capacity := le_trans h0 hc
  have hfc : 0 ≤ fs / 60 * 10 := by positivity
  have heb : 0 ≤ Real.sqrt (eb : ℝ) * 5 := by positivity
  have hnb : 0 ≤ (nav : ℝ) * 2 := by positivity
  unfold AttentionBattery.charge_focus
  exact ⟨le_min (by linarith) hcap, min_le_right _ _, hl⟩

lemma consume_good {b : AttentionBattery} {e c : ℝ}
    (h : BatteryGood b) (hnn : 0 ≤ e ∧ 0 ≤ c) :
    BatteryGood (b.consume e c).2 := by
  obtain ⟨hE, hC⟩ := hnn
  have hg := apply_decay_good h hE
  obtain ⟨h0, hc, hl⟩ := hg
  unfold AttentionBattery.consume
  by_cases hge : (b.apply_decay e).level ≥ c
  · simp only [hge, if_true]
    exact ⟨by simpa using sub_nonneg.mpr hge, by simpa using by linarith, hl⟩
  · simp only [hge, if_false]
    exact ⟨h0, hc, hl⟩

lemma step_good {b : AttentionBattery} {op : BatteryOp}
    (h : BatteryGood b) (hnn : op.Nonneg) : BatteryGood (BatteryOp.step b op) := by
  cases op with
  | charge e me dur he kh => exact charge_good h hnn
  | charge_focus e fs eb nav => exact charge_focus_good h hnn
  | consume e c => exact consume_good h hnn

lemma step_capacity (b : AttentionBattery) (op : BatteryOp) :
    (BatteryOp.step b op).capacity = b.capacity := by
  cases op with
  | charge e me dur he kh =>
      unfold BatteryOp.step AttentionBattery.charge
      by_cases hz : he - (b.apply_decay e).causal_event_count = 0 <;> simp [hz, apply_decay_capacity]
  | charge_focus e fs eb nav =>
      rfl
  | consume e c =>
      unfold BatteryOp.step AttentionBattery.consume
      by_cases hge : (b.apply_decay e).level ≥ c <;> simp [hge, apply_decay_capacity]

lemma run_good {b : AttentionBattery} (ops : List BatteryOp)
    (h : BatteryGood b) (hnn : ∀ op ∈ ops, op.Nonneg) : BatteryGood (BatteryOp.run b ops) := by
  induction ops generalizing b with
  | nil => exact h
  | cons op rest ih =>
      exact ih (step_good h (hnn op (List.mem_cons_self _ _)))
        (fun o ho => hnn o (List.mem_cons_of_mem _ ho))

lemma run_capacity (b : AttentionBattery) (ops : List BatteryOp) :
    (BatteryOp.run b ops).capacity = b.capacity := by
  induction ops generalizing b with
  | nil => rfl
  | cons op rest ih => rw [BatteryOp.run] at *; simpa [step_capacity] using ih (BatteryOp.step b op)

/-- C1.  For every finite sequence of battery operations (legacy charge, focus
charge, consume) started from `AttentionBattery::new`, with all real inputs
nonnegative, the level stays within `[0, capacity]` and the capacity stays
`100` after every operation (exactly, hence within the 1e-10 tolerance). -/
theorem battery_bounds_invariant (ops : List BatteryOp)
    (hnn : ∀ op ∈ ops, op.Nonneg) :
    0 ≤ (BatteryOp.run AttentionBattery.new ops).level ∧
    (BatteryOp.run AttentionBattery.new ops).level ≤
      (BatteryOp.run AttentionBattery.new ops).capacity ∧
    (BatteryOp.run AttentionBattery.new ops).capacity = 100 := by
  have hg := run_good ops batteryGood_new hnn
  exact ⟨hg.1, hg.2.1, by rw [run_capacity]; rfl⟩

/-- Witness for C1 at the concrete history
`[charge_focus 1 30 4 2, consume 2 5]`. -/
theorem battery_bounds_invariant_witness :
    (∀ op ∈ [BatteryOp.charge_focus 1 30 4 2, BatteryOp.consume 2 5], op.Nonneg) ∧
    0 ≤ (BatteryOp.run AttentionBattery.new
          [BatteryOp.charge_focus 1 30 4 2, BatteryOp.consume 2 5]).level ∧
    (BatteryOp.run AttentionBattery.new
          [BatteryOp.charge_focus 1 30 4 2, BatteryOp.consume 2 5]).level ≤
      (BatteryOp.run AttentionBattery.new
          [BatteryOp.charge_focus 1 30 4 2, BatteryOp.consume 2 5]).capacity ∧
    (BatteryOp.run AttentionBattery.new
          [BatteryOp.charge_focus 1 30 4 2, BatteryOp.consume 2 5]).capacity = 100 := by
  have hops : ∀ op ∈ [BatteryOp.charge_focus 1 30 4 2, BatteryOp.consume 2 5], op.Nonneg := by
    intro op hop
    rcases List.mem_cons.mp hop with h | hop
    · subst h; exact ⟨by norm_num, by norm_num⟩
    rcases List.mem_cons.mp hop with h | hop
    · subst h; exact ⟨by norm_num, by norm_num⟩
    · exact absurd hop (List.not_mem_nil _)
  exact ⟨hops, battery_bounds_invariant _ hops⟩

lemma consume_of_affordable (b : AttentionBattery) (elapsed cost : ℝ)
    (h : cost ≤ (b.apply_decay elapsed).level) :
    b.consume elapsed cost =
      (true, { b.apply_decay elapsed with level := (b.apply_decay elapsed).level - cost }) := by
  unfold AttentionBattery.consume
  simp only [ge_iff_le, h, if_true]

lemma consume_of_insufficient (b : AttentionBattery) (elapsed cost : ℝ)
    (h : (b.apply_decay elapsed).level < cost) :
    b.consume elapsed cost = (false, b.apply_decay elapsed) := by
  unfold AttentionBattery.consume
  simp only [ge_iff_le, not_le.mpr h, if_false]

/-- C2.  `consume(cost)` first applies the leak decay; if the post-decay level
is at least `cost` it subtracts `cost` and succeeds, otherwise it fails and
leaves the level exactly at the post-decay value (nothing subtracted). -/
theorem consume_decays_then_checks (b : AttentionBattery) (elapsed cost : ℝ) :
    (cost ≤ (b.apply_decay elapsed).level →
      b.consume elapsed cost =
        (true, { b.apply_decay elapsed with
                 level := (b.apply_decay elapsed).level - cost })) ∧
    ((b.apply_decay elapsed).level < cost →
      b.consume elapsed cost = (false, b.apply_decay elapsed)) :=
  ⟨consume_of_affordable b elapsed cost, consume_of_insufficient b elapsed cost⟩

/-- Witness for C2: both branches exercised on concrete states
(level 10, capacity 100, leak 0.5; zero elapsed time). -/
theorem consume_decays_then_checks_witness :
    ((3 : ℝ) ≤ ((⟨10, 100, 0.5, 0⟩ : AttentionBattery).apply_decay 0).level ∧
      (⟨10, 100, 0.5, 0⟩ : AttentionBattery).consume 0 3 =
        (true, { (⟨10, 100, 0.5, 0⟩ : AttentionBattery).apply_decay 0 with
                 level := ((⟨10, 100, 0.5, 0⟩ : AttentionBattery).apply_decay 0).level - 3 })) ∧
    (((⟨10, 100, 0.5, 0⟩ : AttentionBattery).apply_decay 0).level < 50 ∧
      (⟨10, 100, 0.5, 0⟩ : AttentionBattery).consume 0 50 =
        (false, (⟨10, 100, 0.5, 0⟩ : AttentionBattery).apply_decay 0)) := by
  have hlvl : ((⟨10, 100, 0.5, 0⟩ : AttentionBattery).apply_decay 0).level = 10 := by
    simp [AttentionBattery.apply_decay]
  constructor
  · refine ⟨by rw [hlvl]; norm_num, ?_⟩
    exact (consume_decays_then_checks _ _ _).1 (by rw [hlvl]; norm_num)
  · refine ⟨by rw [hlvl]; norm_num, ?_⟩
    exact (consume_decays_then_checks _ _ _).2 (by rw [hlvl]; norm_num)

/-- C9.  `consume` performs no sign or upper-bound check on `cost`: any cost
at most the post-decay level succeeds and is subtracted verbatim; a strictly
negative cost always succeeds and strictly increases the level; and a
negative cost can push the level above the capacity. -/
theorem consume_no_cost_validation :
    (∀ (b : AttentionBattery) (elapsed cost : ℝ),
        cost ≤ (b.apply_decay elapsed).level →
        b.consume elapsed cost =
          (true, { b.apply_decay elapsed with
                   level := (b.apply_decay elapsed).level - cost })) ∧
    (∀ (b : AttentionBattery) (elapsed cost : ℝ), cost < 0 →
        (b.consume elapsed cost).1 = true ∧
        (b.apply_decay elapsed).level < (b.consume elapsed cost).2.level) ∧
    (∃ (b : AttentionBattery) (elapsed cost : ℝ), cost < 0 ∧
        (b.consume elapsed cost).2.capacity < (b.consume elapsed cost).2.level) := by
  refine ⟨consume_of_affordable, ?_, ?_⟩
  · intro b elapsed cost hneg
    have hpost : (0 : ℝ) ≤ (b.apply_decay elapsed).level := le_max_right _ _
    have hle : cost ≤ (b.apply_decay elapsed).level := le_trans (le_of_lt hneg) hpost
    rw [consume_of_affordable b elapsed cost hle]
    exact ⟨rfl, by simp only []; linarith⟩
  · refine ⟨⟨100, 100, 0.5, 0⟩, 0, -50, by norm_num, ?_⟩
    have hlvl : ((⟨100, 100, 0.5, 0⟩ : AttentionBattery).apply_decay 0).level = 100 := by
      simp [AttentionBattery.apply_decay]
    have hle : (-50 : ℝ) ≤ ((⟨100, 100, 0.5, 0⟩ : AttentionBattery).apply_decay 0).level := by
      rw [hlvl]; norm_num
    rw [consume_of_affordable _ _ _ hle]
    simp only [AttentionBattery.apply_decay, hlvl]
    norm_num

/-- Witness for C9 at elapsed 0 and cost −1 from the jumpstart state. -/
theorem consume_no_cost_validation_witness :
    (AttentionBattery.new.consume 0 (-1)).1 = true ∧
    (AttentionBattery.new.apply_decay 0).level <
      (AttentionBattery.new.consume 0 (-1)).2.level :=
  consume_no_cost_validation.2.1 AttentionBattery.new 0 (-1) (by norm_num)

lemma mul_length_lt_sum (l : List ℝ) (c : ℝ) (hne : l ≠ [])
    (h : ∀ x ∈ l, c < x) : c * l.length < l.sum := by
  induction l with
  | nil => exact absurd rfl hne
  | cons x xs ih =>
      cases xs with
      | nil => simpa using h x (List.mem_cons_self _ _)
      | cons y ys =>
          have hx : c < x := h x (List.mem_cons_self _ _)
          have hrest : c * ((y :: ys) : List ℝ).length < ((y :: ys) : List ℝ).sum :=
            ih (by simp) (fun z hz => h z (List.mem_cons_of_mem _ hz))
          simp only [List.length_cons, List.sum_cons] at *
          push_cast
          push_cast at hrest
          ring_nf
          ring_nf at hrest
          nlinarith

lemma intervals_mean_not_tiny (times : List ℝ)
    (h5 : 5 ≤ (get_intervals times).length) :
    ¬ (list_mean (get_intervals times) < (1e-10 : ℝ)) := by
  set l := get_intervals times with hl
  have hne : l ≠ [] := by
    intro hemp
    rw [hemp] at h5
    simp at h5
  have hmem : ∀ x ∈ l, (1e-10 : ℝ) < x := by
    intro x hx
    rw [hl] at hx
    unfold get_intervals at hx
    have := List.of_mem_filter hx
    exact of_decide_eq_true this
  have hlen : (0 : ℝ) < l.length := by
    have : 0 < l.length := by omega
    exact_mod_cast this
  have hsum := mul_length_lt_sum l (1e-10 : ℝ) hne hmem
  unfold list_mean
  rw [not_lt, le_div_iff₀ hlen]
  linarith

/-- C7 (amended).  The synthetic flag is `true` iff the *filtered interval*
series (consecutive absolute differences exceeding 1e-10) has at least five
entries and its coefficient of variation `stddev / mean` is below 0.15; the
degenerate `mean < 1e-10` branch of the source is unreachable because every
retained interval exceeds `1e-10`. -/
theorem synthetic_flag_intervals (times : List ℝ) :
    is_synthetic_pattern times = true ↔
      5 ≤ (get_intervals times).length ∧
      calculate_std_dev (get_intervals times) (list_mean (get_intervals times)) /
          list_mean (get_intervals times) < 0.15 := by
  unfold is_synthetic_pattern
  by_cases h5 : (get_intervals times).length < 5
  · simp only [h5, if_true]
    constructor
    · intro h; exact absurd h (by simp)
    · rintro ⟨h, _⟩; omega
  · have h5' : 5 ≤ (get_intervals times).length := by omega
    have hmean := intervals_mean_not_tiny times h5'
    simp only [h5, if_false, hmean, decide_eq_true_eq]
    exact ⟨fun h => ⟨h5', h⟩, fun h => h.2⟩

/-- C7 counterexample: the five-sample series `[0,1,2,3,4]` has perfectly
regular unit intervals (coefficient of variation 0 < 0.15), yet the flag is
`false`, because the code demands five *intervals*, not five samples. -/
theorem synthetic_flag_counterexample :
    ([(0 : ℝ), 1, 2, 3, 4].length = 5) ∧
    calculate_std_dev (get_intervals [(0 : ℝ), 1, 2, 3, 4])
        (list_mean (get_intervals [(0 : ℝ), 1, 2, 3, 4])) /
      list_mean (get_intervals [(0 : ℝ), 1, 2, 3, 4]) < 0.15 ∧
    is_synthetic_pattern [(0 : ℝ), 1, 2, 3, 4] = false := by
  have hgi : get_intervals [(0 : ℝ), 1, 2, 3, 4] = [1, 1, 1, 1] := by
    unfold get_intervals
    norm_num [List.filter_cons]
  have hmean : list_mean ([1, 1, 1, 1] : List ℝ) = 1 := by
    norm_num [list_mean]
  have hstd : calculate_std_dev ([1, 1, 1, 1] : List ℝ) 1 = 0 := by
    norm_num [calculate_std_dev, Real.sqrt_eq_zero']
  refine ⟨by norm_num, ?_, ?_⟩
  · rw [hgi, hmean, hstd]
    norm_num
  · unfold is_synthetic_pattern
    rw [hgi]
    norm_num

/-- C6 (amended).  `reset()` clears exactly the current session, the
unique-file set, the cumulative edit/char counters and the heartbeat, while
the per-file focus and navigation accumulators, the navigation-timestamp
ring and the productive set survive; consequently `get_metrics` right after
`reset` reports zero edit bursts and chars, but still counts the retained
productive files. -/
theorem reset_clears_session_counts (t : FocusTracker) (now : ℝ) :
    t.reset.current_session = none ∧
    t.reset.unique_files = [] ∧
    t.reset.cumulative = FocusMetrics.default ∧
    t.reset.last_heartbeat = none ∧
    t.reset.nav_timestamps = t.nav_timestamps ∧
    t.reset.file_focus_accum = t.file_focus_accum ∧
    t.reset.file_nav_accum = t.file_nav_accum ∧
    t.reset.productive_files = t.productive_files ∧
    (t.reset.get_metrics now).edit_burst_count = 0 ∧
    (t.reset.get_metrics now).chars_edited_net = 0 ∧
    (t.reset.get_metrics now).unique_files = t.productive_files.length :=
  ⟨rfl, rfl, rfl, rfl, rfl, rfl, rfl, rfl, rfl, rfl, rfl⟩

/-- C6 counterexample: after `reset()` the metrics are *not* the all-zero
default — the productive set and the per-file navigation accumulator are
retained, so `unique_files` and `navigation_events` both read 1. -/
theorem reset_metrics_counterexample :
    (c6Tracker.reset.get_metrics 0).unique_files = 1 ∧
    (c6Tracker.reset.get_metrics 0).navigation_events = 1 ∧
    FocusMetrics.default.unique_files = 0 ∧
    c6Tracker.reset.get_metrics 0 ≠ FocusMetrics.default := by
  refine ⟨rfl, rfl, rfl, fun h => ?_⟩
  have h1 : (c6Tracker.reset.get_metrics 0).unique_files = 1 := rfl
  rw [h] at h1
  exact Nat.one_ne_zero h1.symm

lemma should_emit_delete (d : Debouncer) (path : MPath) (ts : ℕ) :
    d.should_emit path EditKind.Delete ts = (true, d) := rfl

lemma lookup_insert_self (m : List (MPath × ℕ)) (p : MPath) (v : ℕ) :
    lookup_emit (insert_emit m p v) p = some v := by
  simp [insert_emit, lookup_emit]

lemma lookup_filter_keeps {m : List (MPath × ℕ)} {p : MPath} {t : ℕ}
    (f : MPath × ℕ → Bool) (h : lookup_emit m p = some t) (hf : f (p, t) = true) :
    lookup_emit (m.filter f) p = some t := by
  induction m with
  | nil => simp [lookup_emit] at h
  | cons kv rest ih =>
      obtain ⟨k, v⟩ := kv
      by_cases hk : k = p
      · subst hk
        have hv : v = t := by simpa [lookup_emit] using h
        subst hv
        rw [List.filter_cons, if_pos hf]
        simp [lookup_emit]
      · have h' : lookup_emit rest p = some t := by simpa [lookup_emit, hk] using h
        rw [List.filter_cons]
        by_cases hfk : f (k, v) = true
        · rw [if_pos hfk]
          simpa [lookup_emit, hk] using ih h'
        · rw [if_neg hfk]
          exact ih h'

lemma lookup_filter_ne (m : List (MPath × ℕ)) (p q : MPath) (h : q ≠ p) :
    lookup_emit (m.filter (fun e => decide (e.1 ≠ p))) q = lookup_emit m q := by
  induction m with
  | nil => rfl
  | cons kv rest ih =>
      obtain ⟨k, v⟩ := kv
      rw [List.filter_cons]
      by_cases hk : k = p
      · rw [if_neg (by simp [hk])]
        have hkq : k ≠ q := fun hq => h (hq ▸ hk)
        rw [ih]
        simp [lookup_emit, hkq]
      · rw [if_pos (by simp [hk])]
        by_cases hq : k = q
        · simp [lookup_emit, hq]
        · simp only [lookup_emit, if_neg hq]
          simpa using ih

lemma lookup_insert_ne (m : List (MPath × ℕ)) (p q : MPath) (v : ℕ) (h : q ≠ p) :
    lookup_emit (insert_emit m p v) q = lookup_emit m q := by
  have hpq : p ≠ q := fun hpq => h hpq.symm
  simp only [insert_emit, lookup_emit, if_neg hpq]
  exact lookup_filter_ne m p q h

lemma should_emit_window_us (d : Debouncer) (path : MPath) (kind : EditKind) (ts : ℕ) :
    (d.should_emit path kind ts).2.window_us = d.window_us := by
  unfold Debouncer.should_emit Debouncer.gc Debouncer.record Debouncer.bump
  by_cases hdel : kind = EditKind.Delete
  · simp [hdel]
  · simp only [hdel, if_false]
    split <;> split <;> rfl

lemma deb_run_window_us (d : Debouncer) (es : List RawEvent) :
    (deb_run d es).2.window_us = d.window_us := by
  induction es generalizing d with
  | nil => rfl
  | cons e rest ih =>
      simp only [deb_run]
      rw [ih, should_emit_window_us]

lemma keyTracked_step {d : Debouncer} {p : MPath} {T w : ℕ} (hw : d.window_us = w)
    (e : RawEvent) (hT : T ≤ e.timestamp_us) (hB : e.timestamp_us < T + w)
    (h : KeyTracked d p T) :
    KeyTracked (d.should_emit e.rel_path e.kind e.timestamp_us).2 p T := by
  obtain ⟨t, hlook, hTt⟩ := h
  by_cases hdel : e.kind = EditKind.Delete
  · rw [hdel, should_emit_delete]
    exact ⟨t, hlook, hTt⟩
  · have hsnd : (d.should_emit e.rel_path e.kind e.timestamp_us).2 =
        ((d.bump).record e.rel_path e.timestamp_us
          ((d.bump).allow_of e.rel_path e.timestamp_us)).gc e.timestamp_us := by
      unfold Debouncer.should_emit
      rw [if_neg hdel]
    rw [hsnd]
    have h2 : KeyTracked ((d.bump).record e.rel_path e.timestamp_us
        ((d.bump).allow_of e.rel_path e.timestamp_us)) p T := by
      unfold Debouncer.record
      split
      · by_cases hpq : e.rel_path = p
        · subst hpq
          exact ⟨e.timestamp_us, lookup_insert_self _ _ _, hT⟩
        · refine ⟨t, ?_, hTt⟩
          have hne : p ≠ e.rel_path := fun hq => hpq hq.symm
          rw [lookup_insert_ne _ _ _ _ hne]
          exact hlook
      · exact ⟨t, hlook, hTt⟩
    obtain ⟨t', hlook', hTt'⟩ := h2
    unfold Debouncer.gc
    split
    · refine ⟨t', ?_, hTt'⟩
      apply lookup_filter_keeps _ hlook'
      have hwin : ((d.bump).record e.rel_path e.timestamp_us
          ((d.bump).allow_of e.rel_path e.timestamp_us)).window_us = w := by
        unfold Debouncer.record Debouncer.bump
        split <;> simpa using hw
      rw [hwin]
      simp only [decide_eq_true_eq]
      omega
    · exact ⟨t', hlook', hTt'⟩

lemma keyTracked_run {d : Debouncer} {p : MPath} {T w : ℕ} (hw : d.window_us = w)
    (es : List RawEvent)
    (hes : ∀ e ∈ es, T ≤ e.timestamp_us ∧ e.timestamp_us < T + w)
    (h : KeyTracked d p T) : KeyTracked (deb_run d es).2 p T := by
  induction es generalizing d with
  | nil => exact h
  | cons e rest ih =>
      simp only [deb_run]
      have he := hes e (List.mem_cons_self _ _)
      refine ih ?_ (fun x hx => hes x (List.mem_cons_of_mem _ hx)) ?_
      · rw [should_emit_window_us]; exact hw
      · exact keyTracked_step hw e he.1 he.2 h

lemma emitted_keyTracked {d : Debouncer} (e : RawEvent)
    (hdel : e.kind ≠ EditKind.Delete)
    (hflag : (d.should_emit e.rel_path e.kind e.timestamp_us).1 = true) :
    KeyTracked (d.should_emit e.rel_path e.kind e.timestamp_us).2
      e.rel_path e.timestamp_us := by
  have hfst : (d.should_emit e.rel_path e.kind e.timestamp_us).1 =
      (d.bump).allow_of e.rel_path e.timestamp_us := by
    unfold Debouncer.should_emit
    rw [if_neg hdel]
  have hsnd : (d.should_emit e.rel_path e.kind e.timestamp_us).2 =
      ((d.bump).record e.rel_path e.timestamp_us
        ((d.bump).allow_of e.rel_path e.timestamp_us)).gc e.timestamp_us := by
    unfold Debouncer.should_emit
    rw [if_neg hdel]
  rw [hfst] at hflag
  rw [hsnd]
  have h2 : KeyTracked ((d.bump).record e.rel_path e.timestamp_us
      ((d.bump).allow_of e.rel_path e.timestamp_us)) e.rel_path e.timestamp_us := by
    unfold Debouncer.record
    rw [hflag, if_pos rfl]
    exact ⟨e.timestamp_us, lookup_insert_self _ _ _, le_refl _⟩
  obtain ⟨t', hlook', hTt'⟩ := h2
  unfold Debouncer.gc
  split
  · refine ⟨t', ?_, hTt'⟩
    apply lookup_filter_keeps _ hlook'
    simp only [decide_eq_true_eq]
    omega
  · exact ⟨t', hlook', hTt'⟩

lemma keyTracked_suppresses {d : Debouncer} {p : MPath} {T w : ℕ}
    (hw : d.window_us = w) (e : RawEvent) (hp : e.rel_path = p)
    (hdel : e.kind ≠ EditKind.Delete) (hT : T ≤ e.timestamp_us)
    (hB : e.timestamp_us < T + w) (h : KeyTracked d p T) :
    (d.should_emit e.rel_path e.kind e.timestamp_us).1 = false := by
  obtain ⟨t, hlook, hTt⟩ := h
  have hfst : (d.should_emit e.rel_path e.kind e.timestamp_us).1 =
      (d.bump).allow_of e.rel_path e.timestamp_us := by
    unfold Debouncer.should_emit
    rw [if_neg hdel]
  rw [hfst]
  unfold Debouncer.allow_of
  have hlook' : lookup_emit (d.bump).last_emit_us e.rel_path = some t := by
    rw [hp]; exact hlook
  rw [hlook']
  have hcond : e.timestamp_us - t < (d.bump).window_us := by
    have hbw : (d.bump).window_us = w := hw
    omega
  show (if e.timestamp_us - t < (d.bump).window_us then false else true) = false
  rw [if_pos hcond]

lemma deb_run_length (d : Debouncer) (es : List RawEvent) :
    (deb_run d es).1.length = es.length := by
  induction es generalizing d with
  | nil => rfl
  | cons e rest ih => simp [deb_run, ih]

lemma deb_run_append (d : Debouncer) (l₁ l₂ : List RawEvent) :
    deb_run d (l₁ ++ l₂) =
      ((deb_run d l₁).1 ++ (deb_run (deb_run d l₁).2 l₂).1,
        (deb_run (deb_run d l₁).2 l₂).2) := by
  induction l₁ generalizing d with
  | nil => simp [deb_run]
  | cons e es ih => simp [deb_run, ih]

lemma deb_run_cons_fst (d : Debouncer) (e : RawEvent) (es : List RawEvent) :
    (deb_run d (e :: es)).1 =
      (e, (d.should_emit e.rel_path e.kind e.timestamp_us).1) ::
        (deb_run (d.should_emit e.rel_path e.kind e.timestamp_us).2 es).1 := rfl

lemma deb_run_append_fst (d : Debouncer) (l₁ l₂ : List RawEvent) :
    (deb_run d (l₁ ++ l₂)).1 =
      (deb_run d l₁).1 ++ (deb_run (deb_run d l₁).2 l₂).1 := by
  rw [deb_run_append]

/-- C4.  Debounce semantics: a `Delete` event is never suppressed, and of any
two `Create`/`Modify` events on the same path whose timestamps (monotone
non-decreasing, as the single watcher callback stamps them in receipt order)
lie within the debounce window of each other, at most one carries the emit
flag in the debouncer's output. -/
theorem debounce_delete_and_window :
    (∀ (d : Debouncer) (path : MPath) (ts : ℕ),
        (d.should_emit path EditKind.Delete ts).1 = true) ∧
    (∀ (window : ℕ) (pre mid post : List RawEvent) (e₁ e₂ : RawEvent),
        List.Sorted (· ≤ ·)
          ((pre ++ e₁ :: (mid ++ e₂ :: post)).map RawEvent.timestamp_us) →
        e₁.rel_path = e₂.rel_path →
        e₁.kind ≠ EditKind.Delete → e₂.kind ≠ EditKind.Delete →
        e₂.timestamp_us - e₁.timestamp_us < window →
        ∀ (out₁ out₂ out₃ : List (RawEvent × Bool)) (b₁ b₂ : Bool),
          (deb_run (Debouncer.new window) (pre ++ e₁ :: (mid ++ e₂ :: post))).1 =
            out₁ ++ (e₁, b₁) :: (out₂ ++ (e₂, b₂) :: out₃) →
          out₁.length = pre.length → out₂.length = mid.length →
          ¬ (b₁ = true ∧ b₂ = true)) := by
  constructor
  · intro d path ts
    rfl
  · intro window pre mid post e₁ e₂ hsorted hpath hk1 hk2 hwin
    intro out₁ out₂ out₃ b₁ b₂ hout hlen1 hlen2 hboth
    obtain ⟨hb₁, hb₂⟩ := hboth
    subst hb₁
    subst hb₂
    have hdec : (deb_run (Debouncer.new window) (pre ++ e₁ :: (mid ++ e₂ :: post))).1 =
        (deb_run (Debouncer.new window) pre).1 ++
          (e₁, ((deb_run (Debouncer.new window) pre).2.should_emit
                  e₁.rel_path e₁.kind e₁.timestamp_us).1) ::
          ((deb_run ((deb_run (Debouncer.new window) pre).2.should_emit
              e₁.rel_path e₁.kind e₁.timestamp_us).2 mid).1 ++
            (e₂, ((deb_run ((deb_run (Debouncer.new window) pre).2.should_emit
                      e₁.rel_path e₁.kind e₁.timestamp_us).2 mid).2.should_emit
                    e₂.rel_path e₂.kind e₂.timestamp_us).1) ::
              (deb_run ((deb_run ((deb_run (Debouncer.new window) pre).2.should_emit
                      e₁.rel_path e₁.kind e₁.timestamp_us).2 mid).2.should_emit
                    e₂.rel_path e₂.kind e₂.timestamp_us).2 post).1) := by
      rw [deb_run_append_fst, deb_run_cons_fst, deb_run_append_fst, deb_run_cons_fst]
    rw [hdec] at hout
    obtain ⟨hout₁, houtR⟩ := List.append_inj hout (by rw [deb_run_length, hlen1])
    injection houtR with hhead htail
    have hflag₁ : ((deb_run (Debouncer.new window) pre).2.should_emit
        e₁.rel_path e₁.kind e₁.timestamp_us).1 = true := congrArg Prod.snd hhead
    obtain ⟨hout₂, houtR₂⟩ := List.append_inj htail (by rw [deb_run_length, hlen2])
    injection houtR₂ with hhead₂ htail₂
    have hflag₂ : ((deb_run ((deb_run (Debouncer.new window) pre).2.should_emit
        e₁.rel_path e₁.kind e₁.timestamp_us).2 mid).2.should_emit
          e₂.rel_path e₂.kind e₂.timestamp_us).1 = true := congrArg Prod.snd hhead₂
    -- extract the ordering facts from the sorted hypothesis
    have hmap : (pre ++ e₁ :: (mid ++ e₂ :: post)).map RawEvent.timestamp_us =
        pre.map RawEvent.timestamp_us ++ e₁.timestamp_us ::
          (mid.map RawEvent.timestamp_us ++ e₂.timestamp_us ::
            post.map RawEvent.timestamp_us) := by
      simp
    rw [hmap] at hsorted
    have hs2 := (List.pairwise_append.mp hsorted).2.1
    rw [List.pairwise_cons] at hs2
    obtain ⟨hall, hrest3⟩ := hs2
    have hT2 : e₁.timestamp_us ≤ e₂.timestamp_us :=
      hall _ (List.mem_append_right _ (List.mem_cons_self _ _))
    have hmid : ∀ x ∈ mid, e₁.timestamp_us ≤ x.timestamp_us ∧
        x.timestamp_us < e₁.timestamp_us + window := by
      intro x hx
      have hlb : e₁.timestamp_us ≤ x.timestamp_us :=
        hall _ (List.mem_append_left _ (List.mem_map_of_mem _ hx))
      have hub : x.timestamp_us ≤ e₂.timestamp_us :=
        (List.pairwise_append.mp hrest3).2.2 _ (List.mem_map_of_mem _ hx) _
          (List.mem_cons_self _ _)
      exact ⟨hlb, by omega⟩
    -- window bookkeeping
    have hwPre : (deb_run (Debouncer.new window) pre).2.window_us = window := by
      rw [deb_run_window_us]
      rfl
    have hw₁ : ((deb_run (Debouncer.new window) pre).2.should_emit
        e₁.rel_path e₁.kind e₁.timestamp_us).2.window_us = window := by
      rw [should_emit_window_us]
      exact hwPre
    have hwMid : (deb_run ((deb_run (Debouncer.new window) pre).2.should_emit
        e₁.rel_path e₁.kind e₁.timestamp_us).2 mid).2.window_us = window := by
      rw [deb_run_window_us]
      exact hw₁
    -- the suppression chain
    have hkey₁ := emitted_keyTracked (d := (deb_run (Debouncer.new window) pre).2)
      e₁ hk1 hflag₁
    have hkey₂ := keyTracked_run hw₁ mid hmid hkey₁
    have hsup := keyTracked_suppresses hwMid e₂ hpath.symm hk2 hT2 (by omega) hkey₂
    rw [hflag₂] at hsup
    exact absurd hsup (by simp)

/-- Witness for C4: a `Create` at 1000 µs followed by a `Modify` at 1050 µs on
the same path with a 100 µs window; the run emits the first and suppresses the
second, so the theorem's hypotheses are all dischargeable with `b₂ = false`. -/
theorem debounce_delete_and_window_witness :
    ((Debouncer.new 100).should_emit ["src", "main.rs"] EditKind.Delete 7).1 = true ∧
    ¬ ((true : Bool) = true ∧ (false : Bool) = true) := by
  constructor
  · exact debounce_delete_and_window.1 (Debouncer.new 100) ["src", "main.rs"] 7
  · exact debounce_delete_and_window.2 100 [] [] []
      ⟨["src", "main.rs"], 1000, EditKind.Create⟩
      ⟨["src", "main.rs"], 1050, EditKind.Modify⟩
      (by simp [List.sorted_cons]) rfl (by decide) (by decide) (by decide)
      [] [] [] true false (by decide) rfl rfl

/-- C10.  Processing a `Delete` leaves the debouncer state completely
unchanged — `should_emit` returns `true` before touching the per-path map or
the observation counter — so removing the `Delete` events from any sequence
changes neither the final state nor the decisions taken on the remaining
`Create`/`Modify` events. -/
theorem delete_frame_effect :
    (∀ (d : Debouncer) (path : MPath) (ts : ℕ),
        d.should_emit path EditKind.Delete ts = (true, d)) ∧
    (∀ (d : Debouncer) (evs : List RawEvent),
        deb_run d (evs.filter (fun e => decide (e.kind ≠ EditKind.Delete))) =
          ((deb_run d evs).1.filter (fun r => decide (r.1.kind ≠ EditKind.Delete)),
            (deb_run d evs).2)) := by
  constructor
  · intro d path ts
    rfl
  · intro d evs
    induction evs generalizing d with
    | nil => rfl
    | cons e es ih =>
        by_cases hdel : e.kind = EditKind.Delete
        · have hse : d.should_emit e.rel_path e.kind e.timestamp_us = (true, d) := by
            rw [hdel]
            exact should_emit_delete _ _ _
          have hdp : decide (e.kind ≠ EditKind.Delete) = false := by
            simp [hdel]
          have hstep : deb_run d (e :: es) =
              ((e, true) :: (deb_run d es).1, (deb_run d es).2) := by
            show ((e, (d.should_emit e.rel_path e.kind e.timestamp_us).1) ::
                (deb_run (d.should_emit e.rel_path e.kind e.timestamp_us).2 es).1,
                (deb_run (d.should_emit e.rel_path e.kind e.timestamp_us).2 es).2) = _
            rw [hse]
          rw [List.filter_cons, hdp]
          simp only [Bool.false_eq_true, if_false]
          rw [hstep]
          rw [List.filter_cons]
          have hdp2 : decide (((e, true) : RawEvent × Bool).1.kind ≠ EditKind.Delete) = false :=
            hdp
          rw [hdp2]
          simp only [Bool.false_eq_true, if_false]
          exact ih d
        · have hih := ih (d.should_emit e.rel_path e.kind e.timestamp_us).2
          simp [deb_run, List.filter_cons, hdel]
          simpa [Prod.ext_iff] using hih

lemma deb_run_events (d : Debouncer) (es : List RawEvent) :
    (deb_run d es).1.map Prod.fst = es := by
  induction es generalizing d with
  | nil => rfl
  | cons e rest ih => simp [deb_run, ih]

lemma mem_monitor_emits {it ie : List String} {w : ℕ} {evs : List WatchEvent}
    {ev : RawEvent} (h : ev ∈ monitor_emits it ie w evs) :
    should_ignore ev.rel_path it ie = false := by
  unfold monitor_emits at h
  obtain ⟨r, hr, hev⟩ := List.mem_map.mp h
  have hmem' : r ∈ (deb_run (Debouncer.new w) (callback_filter it ie evs)).1 :=
    (List.mem_filter.mp hr).1
  have hin : ev ∈ callback_filter it ie evs := by
    rw [← deb_run_events (Debouncer.new w) (callback_filter it ie evs)]
    exact List.mem_map.mpr ⟨r, hmem', hev⟩
  obtain ⟨we, hwe, hsome⟩ := List.mem_filterMap.mp hin
  by_cases hig : should_ignore (normalize_rel we.raw_path) it ie = true
  · rw [if_pos hig] at hsome
    exact absurd hsome (by simp)
  · rw [if_neg hig] at hsome
    have hev' : ev = ⟨normalize_rel we.raw_path, we.timestamp_us, we.kind⟩ :=
      (Option.some.inj hsome).symm
    rw [hev']
    simpa using hig

/-- C5 (amended).  Under the default `MonitorConfig` — ignore-dir set
`{.git, target, node_modules}` and ignore-extension set `{log}` (the code
never inserts `"lock"`) — no emitted event has a first normalized component
in the ignore-dir set or final extension `log`. -/
theorem path_filter_default_sets (window : ℕ) (evs : List WatchEvent)
    (ev : RawEvent)
    (hmem : ev ∈ monitor_emits default_ignore_top default_ignore_ext window evs) :
    (∀ first, ev.rel_path.head? = some first →
        first ≠ ".git" ∧ first ≠ "target" ∧ first ≠ "node_modules") ∧
    rel_extension ev.rel_path ≠ some "log" := by
  have h := mem_monitor_emits hmem
  unfold should_ignore at h
  rw [Bool.or_eq_false_iff] at h
  obtain ⟨h1, h2⟩ := h
  constructor
  · intro first hfirst
    rw [hfirst] at h1
    have h1' : ¬ (first ∈ default_ignore_top) := by simpa using h1
    simp [default_ignore_top, not_or] at h1'
    exact h1'
  · intro hext
    rw [hext] at h2
    simp [default_ignore_ext] at h2

/-- Witness for C5's amended theorem: a plain `src/main.rs` create event is
emitted and satisfies both exclusions. -/
theorem path_filter_default_sets_witness :
    ((⟨["src", "main.rs"], 0, EditKind.Create⟩ : RawEvent) ∈
        monitor_emits default_ignore_top default_ignore_ext 120000
          [⟨[PathComp.normal "src", PathComp.normal "main.rs"], 0, EditKind.Create⟩]) ∧
    ((∀ first, (["src", "main.rs"] : MPath).head? = some first →
        first ≠ ".git" ∧ first ≠ "target" ∧ first ≠ "node_modules") ∧
      rel_extension ["src", "main.rs"] ≠ some "log") := by
  have hmem : (⟨["src", "main.rs"], 0, EditKind.Create⟩ : RawEvent) ∈
      monitor_emits default_ignore_top default_ignore_ext 120000
        [⟨[PathComp.normal "src", PathComp.normal "main.rs"], 0, EditKind.Create⟩] := by
    decide
  exact ⟨hmem, path_filter_default_sets 120000 _ _ hmem⟩

/-- C5 counterexample: with the default configuration a `Cargo.lock` create
event passes the filter and is emitted, although its final extension `lock`
belongs to the ignore-extension set `{log, lock}` claimed by the
specification — the code's default set contains `log` only. -/
theorem path_filter_lock_counterexample :
    monitor_emits default_ignore_top default_ignore_ext 120000
        [⟨[PathComp.normal "Cargo.lock"], 0, EditKind.Create⟩] =
      [⟨["Cargo.lock"], 0, EditKind.Create⟩] ∧
    rel_extension ["Cargo.lock"] = some "lock" ∧
    "lock" ∈ ["log", "lock"] := by
  refine ⟨by decide, by decide, by decide⟩

/-- C3.  When consumption succeeds, the byte sequence that is signed is
exactly the ASCII payload `"VALID:cost=<2dp>:ts=<seconds>"` — built once, no
re-serialization — and, under the Ed25519 contract (64-byte signatures
verifying under the matching public key), the returned signature verifies
over exactly those payload bytes. -/
theorem ticket_signed_payload (S : SigScheme) (sk : S.SKey)
    (hlen : ∀ (sk' : S.SKey) (m : String), (S.dalek_sign sk' m).length = 64)
    (hcorrect : ∀ (sk' : S.SKey) (m : String),
      S.dalek_verify (S.verifying_key sk') m (S.dalek_sign sk' m) = true)
    (difficulty_factor : ℝ) (battery : AttentionBattery) (elapsed : ℝ)
    (cost : ℚ) (uptime_secs : ℕ)
    (hsuccess : (battery.consume elapsed ((cost : ℝ) * difficulty_factor)).1 = true) :
    (handle_get_ticket S sk difficulty_factor battery elapsed cost uptime_secs).1 =
      Response.Ticket true
        (some (S.dalek_sign sk
          ("VALID:cost=" ++ fmt2 cost ++ ":ts=" ++ toString uptime_secs)))
        "Ticket issued. Thermodynamic balance verified." ∧
    verify_signature S (S.verifying_key sk)
        ("VALID:cost=" ++ fmt2 cost ++ ":ts=" ++ toString uptime_secs)
        (S.dalek_sign sk
          ("VALID:cost=" ++ fmt2 cost ++ ":ts=" ++ toString uptime_secs)) =
      Except.ok true := by
  constructor
  · simp [handle_get_ticket, hsuccess, sign_data, Except.toOption]
  · simp [verify_signature, hlen, hcorrect]

/-- Witness for C3 at cost 1 and uptime 42 from the jumpstart battery,
together with the concrete payload rendering. -/
theorem ticket_signed_payload_witness :
    fmt2 1 = "1.00" ∧
    ((handle_get_ticket trivial_scheme () 1 AttentionBattery.new 0 1 42).1 =
      Response.Ticket true
        (some (trivial_scheme.dalek_sign ()
          ("VALID:cost=" ++ fmt2 1 ++ ":ts=" ++ toString 42)))
        "Ticket issued. Thermodynamic balance verified." ∧
    verify_signature trivial_scheme (trivial_scheme.verifying_key ())
        ("VALID:cost=" ++ fmt2 1 ++ ":ts=" ++ toString 42)
        (trivial_scheme.dalek_sign ()
          ("VALID:cost=" ++ fmt2 1 ++ ":ts=" ++ toString 42)) =
      Except.ok true) := by
  constructor
  · have habs : |(1 : ℚ)| * 100 = 100 := by norm_num
    have hrhe : round_half_even 100 = 100 := by
      simp only [round_half_even]
      norm_num
    simp only [fmt2, habs, hrhe]
    rfl
  · refine ticket_signed_payload trivial_scheme () (fun sk' m => by simp [trivial_scheme])
      (fun sk' m => by simp [trivial_scheme]) 1 AttentionBattery.new 0 1 42 ?_
    have hle : ((1 : ℚ) : ℝ) * 1 ≤ (AttentionBattery.new.apply_decay 0).level := by
      norm_num [AttentionBattery.apply_decay, AttentionBattery.new, le_max_iff]
    rw [consume_of_affordable _ _ _ hle]
